import Mathlib

/-!
Shallow embedding of the fragmenta/mux HTTP router core (mux.go and the
parameter-extraction file) together with proofs about its routing,
middleware composition and parameter handling.

Side effects of handlers are modelled by explicit state passing: the
`World` is the observable output a handler writes (the response stream),
handlers return it together with an optional error, and the dispatch
function additionally records which handlers were invoked.
-/

namespace MuxModel

/-- The observable output state a handler writes to (models http.ResponseWriter
side effects as an event trace). -/
abbrev World := List String

/-- Errors are opaque strings (Go `error` values are treated opaquely by the core). -/
abbrev Err := String

/-- Uploaded-file descriptors are opaque (models *multipart.FileHeader). -/
abbrev FileHeader := String

/-- Models strings.HasPrefix on the underlying character lists:
`startsWithChars pre s` is true when `pre` is an initial run of `s`. -/
def startsWithChars : List Char → List Char → Bool
  | [], _ => true
  | _ :: _, [] => false
  | p :: ps, c :: cs => p == c && startsWithChars ps cs

/-- Models strings.HasPrefix(s, pre). -/
def goHasPre (s pre : String) : Bool := startsWithChars pre.data s.data

/-- True for the ASCII digit characters 0-9 (the set "0123456789" used by GetInt). -/
def isDigitChar (c : Char) : Bool := '0' ≤ c && c ≤ '9'

/-- Index of the last character of the list that is an ASCII digit, if any:
models strings.LastIndexAny(v, "0123456789") with `none` for -1. -/
def lastDigitIdx : List Char → Option Nat
  | [] => none
  | c :: rest =>
    match lastDigitIdx rest with
    | some i => some (i + 1)
    | none => if isDigitChar c then some 0 else none

/-- Number of characters kept by the slice v[0 : LastIndexAny(v,"0123456789")+1]. -/
def truncCount (cs : List Char) : Nat :=
  match lastDigitIdx cs with
  | none => 0
  | some i => i + 1

/-- Numeric value of a digit character, none for non-digits. -/
def digitVal (c : Char) : Option Nat :=
  if isDigitChar c then some (c.toNat - '0'.toNat) else none

/-- Parses a non-empty run of ASCII digits as a base-10 natural number;
none when the list is empty or holds a non-digit. -/
def parseDigits (cs : List Char) : Option Nat :=
  match cs with
  | [] => none
  | _ => cs.foldl (fun acc c => acc.bind fun n => (digitVal c).map fun d => n * 10 + d) (some 0)

/-- Models strconv.ParseInt(s, 10, 64): optional sign, then digits, with the
signed 64-bit range check; none models a non-nil error. -/
def parseInt64 (cs : List Char) : Option Int :=
  match cs with
  | '+' :: rest =>
    (parseDigits rest).bind fun n =>
      if n ≤ 2 ^ 63 - 1 then some (n : Int) else none
  | '-' :: rest =>
    (parseDigits rest).bind fun n =>
      if n ≤ 2 ^ 63 then some (-(n : Int)) else none
  | _ =>
    (parseDigits cs).bind fun n =>
      if n ≤ 2 ^ 63 - 1 then some (n : Int) else none

/-- The value GetInt derives from an already-truncated string: the parsed
integer, or 0 on a parse error. -/
def parseIntOrZero (cs : List Char) : Int :=
  match parseInt64 cs with
  | some i => i
  | none => 0

/-- Association-list lookup for the Go map access `l[k]` with presence flag. -/
def lookupA {α : Type} : List (String × α) → String → Option α
  | [], _ => none
  | (k', v) :: rest, k => if k' == k then some v else lookupA rest k

/-- Association-list update for the Go map write `l[k] = v`: replaces the
entry for the key, or inserts it when absent. -/
def setA {α : Type} : List (String × α) → String → α → List (String × α)
  | [], k, v => [(k, v)]
  | (k', v') :: rest, k, v =>
    if k' == k then (k, v) :: rest else (k', v') :: setA rest k v

/-- RequestParams stores every parsed parameter of a request:
path params, query params and body params in `Values`, uploaded files in
`Files` (url.Values and the multipart file map as association lists). -/
structure RequestParams where
  Values : List (String × List String)
  Files : List (String × List FileHeader)

/-- Set sets this key to these values, removing any other entries
(`p.Values[key] = values`). -/
def RequestParams.Set (p : RequestParams) (key : String) (values : List String) : RequestParams :=
  { p with Values := setA p.Values key values }

/-- Add appends these values to this key, without removing any other entries
(`p.Values[key] = append(p.Values[key], values...)`: absent keys start from nil). -/
def RequestParams.Add (p : RequestParams) (key : String) (values : List String) : RequestParams :=
  { p with Values := setA p.Values key ((lookupA p.Values key).getD [] ++ values) }

/-- Delete all values associated with the key. -/
def RequestParams.Delete (p : RequestParams) (key : String) : RequestParams :=
  { p with Values := (p.Values.filter fun kv => !(kv.1 == key)) }

/-- Get returns the first value for this key or a blank string if no entry.
The result is an Option: `none` models the out-of-range panic of the index
access v[0] when the key is present but holds an empty slice. -/
def RequestParams.Get (p : RequestParams) (key : String) : Option String :=
  match lookupA p.Values key with
  | none => some ""
  | some vs => vs.head?

/-- Flattens a Values list to one entry per key, taking v[0] of each value
slice; `none` models the panic when some present key has an empty slice. -/
def flattenVals : List (String × List String) → Option (List (String × String))
  | [] => some []
  | (k, vs) :: rest =>
    match vs with
    | [] => none
    | v :: _ => (flattenVals rest).map fun l => (k, v) :: l

/-- Map returns a flattened map of params with only one entry for each key;
`none` models the v[0] panic on a present key with no values. -/
def RequestParams.Map (p : RequestParams) : Option (List (String × String)) :=
  flattenVals p.Values

/-- GetInt returns the first value for the key as an integer, after
truncating the string just past its last digit
(`v = v[0 : strings.LastIndexAny(v, "0123456789")+1]`), returning 0 on any
parse error; `none` propagates the panic of Get. -/
def RequestParams.GetInt (p : RequestParams) (key : String) : Option Int :=
  (p.Get key).map fun v => parseIntOrZero (v.data.take (truncCount v.data))

/-- A request as the mux core observes it: method, URL path, decoded query
parameters, and an optional body carrying the outcomes the standard library
parsers would produce for it (the parsers themselves are out of scope). -/
structure BodyData where
  ParseForm : Except Err (List (String × List String))
  ParseMultipartForm : Except Err (List (String × List String) × List (String × List FileHeader))

structure Request where
  Method : String
  Path : String
  Query : List (String × List String)
  Body : Option BodyData
  ContentType : String

/-- A handler writes to the world and returns an optional error (HandlerFunc). -/
abbrev HandlerFunc := Request → World → World × Option Err

/-- ErrorHandlerFunc displays an error. -/
abbrev ErrorHandlerFunc := Request → Err → World → World

/-- A std net/http HandlerFunc (no error return). -/
abbrev HttpHandlerFunc := Request → World → World

/-- Middleware is a handler that wraps another handler. -/
abbrev Middleware := HttpHandlerFunc → HttpHandlerFunc

/-- The Route interface as mux.go consumes it: the method/path matchers,
the path-parameter extractor and the bound handler. -/
structure RouteI where
  MatchMethod : String → Bool
  MatchMaybe : String → Bool
  Match : String → Bool
  Parse : String → List (String × String)
  Handler : HandlerFunc

/-- Mux handles http requests by selecting a handler and passing the request
to it; routes are evaluated in the order they were added, and requests pass
through the middleware chain first. -/
structure Mux where
  routes : List RouteI
  handlerFuncs : List Middleware
  ErrorHandler : ErrorHandlerFunc
  FileHandler : HandlerFunc

/-- The route-scanning loop of Mux.Match: routes are checked in order; for
each, the probabilistic match first, then the method, then the exact match. -/
def matchList : List RouteI → String → String → Option RouteI
  | [], _, _ => none
  | rt :: rest, path, method =>
    if rt.MatchMaybe path then
      if rt.MatchMethod method then
        if rt.Match path then some rt
        else matchList rest path method
      else matchList rest path method
    else matchList rest path method

/-- Match finds the route (if any) which matches this request; a nil request
(`none`) matches nothing. -/
def Mux.Match (m : Mux) (r : Option Request) : Option RouteI :=
  match r with
  | none => none
  | some req => matchList m.routes req.Path req.Method

/-- Records which of the pluggable functions RouteRequest invoked. -/
inductive Call where
  | route : Call
  | file : Call
  | errH : Err → Call

/-- RouteRequest is the final endpoint of all requests: it runs the matched
route's handler, or the FileHandler when no route matches, and forwards a
non-nil error to the ErrorHandler. Besides the resulting world it returns
the list of handler invocations in the order the Go code performs them. -/
def Mux.RouteRequest (m : Mux) (r : Request) (w : World) : World × List Call :=
  match m.Match (some r) with
  | none =>
    let res := m.FileHandler r w
    match res.2 with
    | some err => (m.ErrorHandler r err res.1, [Call.file, Call.errH err])
    | none => (res.1, [Call.file])
  | some route =>
    let res := route.Handler r w
    match res.2 with
    | some err => (m.ErrorHandler r err res.1, [Call.route, Call.errH err])
    | none => (res.1, [Call.route])

/-- RouteRequest as the plain http.HandlerFunc value that ServeHTTP wraps. -/
def Mux.RouteRequestW (m : Mux) : HttpHandlerFunc :=
  fun r w => (m.RouteRequest r w).1

/-- ServeHTTP implements net/http.Handler: it folds the middleware chain over
the dispatch endpoint (`h := m.RouteRequest; for _, mh := range m.handlerFuncs
{ h = mh(h) }; h(w, r)`). -/
def Mux.ServeHTTP (m : Mux) (r : Request) (w : World) : World :=
  (m.handlerFuncs.foldl (fun h mh => mh h) m.RouteRequestW) r w

/-- AddMiddleware adds a middleware function by prepending it to the array
of middleware. -/
def Mux.AddMiddleware (m : Mux) (middleware : Middleware) : Mux :=
  { m with handlerFuncs := middleware :: m.handlerFuncs }

/-! ### The pattern matcher and route construction

The concrete Route implementation (NewRoute, the pattern compiler and its
matchers) is code of this repository that is not under src/; it is modelled
from the spec below. -/

/-- Splits a character list on '/', keeping empty segments, like
strings.Split(s, "/"). -/
def splitSegsAux : List Char → List Char → List (List Char)
  | [], acc => [acc.reverse]
  | c :: rest, acc =>
    if c == '/' then acc.reverse :: splitSegsAux rest []
    else splitSegsAux rest (c :: acc)

/-- Splits a path or template string into its '/'-separated segments. -/
def splitSegs (s : String) : List (List Char) := splitSegsAux s.data []

/-- Modelled from the spec: a compiled Pattern is an ordered list of segment
descriptors, each a literal or a named capture. -/
inductive Seg where
  | lit : List Char → Seg
  | capture : List Char → Seg

/-- A template segment beginning with the ':' sigil becomes a named capture;
all other segments are literal. -/
def compileSeg (cs : List Char) : Seg :=
  match cs with
  | ':' :: name => Seg.capture name
  | _ => Seg.lit cs

/-- The capture names of a compiled pattern, in order. -/
def captureNames (segs : List Seg) : List (List Char) :=
  segs.filterMap fun s =>
    match s with
    | Seg.capture n => some n
    | Seg.lit _ => none

/-- True when the list of capture names holds a duplicate. -/
def hasDupNames : List (List Char) → Bool
  | [] => false
  | n :: rest => rest.contains n || hasDupNames rest

/-- Modelled from the spec: Compile(template) splits the template on '/',
turns ':'-sigil segments into named captures, and fails with a CompileError
on duplicate capture names. -/
def compile (template : String) : Except Err (List Seg) :=
  let segs := (splitSegs template).map compileSeg
  if hasDupNames (captureNames segs) then
    Except.error "mux: duplicate capture names in pattern"
  else Except.ok segs

/-- Modelled from the spec: the authoritative exact match compares segment by
segment; literal segments must match exactly, capture segments match any
non-empty segment. -/
def patMatchL : List Seg → List (List Char) → Bool
  | [], [] => true
  | Seg.lit s :: ps, seg :: ss => s == seg && patMatchL ps ss
  | Seg.capture _ :: ps, seg :: ss => !seg.isEmpty && patMatchL ps ss
  | _, _ => false

/-- Modelled from the spec: MaybeMatches is the cheap pre-filter comparing
the segment count and the literal segments only. -/
def maybeMatchesL : List Seg → List (List Char) → Bool
  | [], [] => true
  | Seg.lit s :: ps, seg :: ss => s == seg && maybeMatchesL ps ss
  | Seg.capture _ :: ps, _ :: ss => maybeMatchesL ps ss
  | _, _ => false

/-- Modelled from the spec: segment-wise extraction binding each capture name
to the path segment at its position. -/
def patExtract : List Seg → List (List Char) → List (String × String)
  | Seg.capture n :: ps, seg :: ss => (String.mk n, String.mk seg) :: patExtract ps ss
  | Seg.lit _ :: ps, _ :: ss => patExtract ps ss
  | _, _ => []

/-- Modelled from the spec: Parse returns the capture bindings on a matching
path and an empty mapping on a non-matching one (it never raises). -/
def patParse (pat : List Seg) (path : String) : List (String × String) :=
  if patMatchL pat (splitSegs path) then patExtract pat (splitSegs path) else []

/-- Modelled from the spec: a Route value built from a compiled pattern, an
allowed-method set and a handler; the matchers delegate to the pattern. -/
def routeFromPattern (pat : List Seg) (methods : List String) (h : HandlerFunc) : RouteI :=
  { MatchMethod := fun m => methods.contains m
    MatchMaybe := fun path => maybeMatchesL pat (splitSegs path)
    Match := fun path => patMatchL pat (splitSegs path)
    Parse := fun path => patParse pat path
    Handler := h }

/-- Modelled from the spec: the sentinel state of a route whose pattern
failed to compile — permanently non-matchable. -/
def sentinelRoute : RouteI :=
  { MatchMethod := fun _ => false
    MatchMaybe := fun _ => false
    Match := fun _ => false
    Parse := fun _ => []
    Handler := fun _ w => (w, none) }

/-- Modelled from the spec: NewRoute wraps Compile, propagating its error,
and leaves the default allowed methods {GET, HEAD}. -/
def NewRoute (pattern : String) (handler : HandlerFunc) : Except Err RouteI :=
  match compile pattern with
  | Except.error e => Except.error e
  | Except.ok pat => Except.ok (routeFromPattern pat ["GET", "HEAD"] handler)

/-- Add adds a route for this request with the default methods: it builds the
route with NewRoute and appends it to the route list in call order; on a
compile failure the error is only logged and the route is still appended
(modelled from the spec: in its non-matchable sentinel state). -/
def Mux.Add (m : Mux) (pattern : String) (handler : HandlerFunc) : Mux × RouteI :=
  let rt :=
    match NewRoute pattern handler with
    | Except.ok r => r
    | Except.error _ => sentinelRoute
  ({ m with routes := m.routes ++ [rt] }, rt)

/-! ### Parameter building -/

/-- Helper for Except error detection. -/
def isErrE {ε α : Type} : Except ε α → Bool
  | Except.error _ => true
  | Except.ok _ => false

/-- ParamsWithMux returns params for a given mux and request. The first
argument models the package-level default mux set by SetDefault: the Go body
calls `mux.Match(r)` on that package variable, not on its parameter `m`;
the outer `none` models the nil-pointer panic when no default mux is set. -/
def ParamsWithMux (defaultMux : Option Mux) (m : Mux) (r : Request) :
    Option (Except Err RequestParams) :=
  match defaultMux with
  | none => none
  | some dm =>
    some (
      match dm.Match (some r) with
      | none => Except.error "mux: could not find route for request"
      | some route =>
        let params0 : RequestParams := { Values := [], Files := [] }
        let urlParams := route.Parse r.Path
        let params1 := urlParams.foldl (fun p kv => p.Set kv.1 [kv.2]) params0
        let params2 := r.Query.foldl (fun p kv => p.Add kv.1 kv.2) params1
        match r.Body with
        | none => Except.ok params2
        | some body =>
          if goHasPre r.ContentType "application/x-www-form-urlencoded" then
            match body.ParseForm with
            | Except.error e => Except.error e
            | Except.ok form =>
              Except.ok (form.foldl (fun p kv => p.Add kv.1 kv.2) params2)
          else if goHasPre r.ContentType "multipart/form-data" then
            match body.ParseMultipartForm with
            | Except.error e => Except.error e
            | Except.ok mp =>
              Except.ok
                { (mp.1.foldl (fun p kv => p.Add kv.1 kv.2) params2) with
                  Files := mp.2.foldl (fun fs kv => setA fs kv.1 kv.2) params2.Files }
          else Except.ok params2)

/-- True when parameter building would fail on this request's body: a body is
present and its declared content type's parser reports an error. -/
def bodyFails (r : Request) : Bool :=
  match r.Body with
  | none => false
  | some b =>
    if goHasPre r.ContentType "application/x-www-form-urlencoded" then isErrE b.ParseForm
    else if goHasPre r.ContentType "multipart/form-data" then isErrE b.ParseMultipartForm
    else false

/-! ### Derived predicates and concrete fixtures used in the statements -/

/-- A route passes the scan for a path and method when all three checks of
the dispatch loop succeed: MatchMaybe, then MatchMethod, then Match. -/
def passesR (path method : String) (rt : RouteI) : Bool :=
  rt.MatchMaybe path && rt.MatchMethod method && rt.Match path

/-- True for the invocation of a dispatch endpoint (route handler or the
fallback FileHandler), false for the ErrorHandler. -/
def isHandlerCall : Call → Bool
  | Call.route => true
  | Call.file => true
  | Call.errH _ => false

/-- The error an ErrorHandler invocation received, if the call is one. -/
def errOf : Call → Option Err
  | Call.errH e => some e
  | _ => none

/-- The error value returned by whichever dispatch endpoint RouteRequest
runs on this request: the matched route's handler, or else the FileHandler. -/
def executedErr (m : Mux) (r : Request) (w : World) : Option Err :=
  match m.Match (some r) with
  | none => (m.FileHandler r w).2
  | some route => (route.Handler r w).2

/-- A middleware that records a pre-processing event before calling the
wrapped handler and a post-processing event after it returns. -/
def tagMW (pre post : String) : Middleware :=
  fun h r w => (h r (w ++ [pre])) ++ [post]

/-- The longest suffix of the string made only of non-digit characters is
removed; what remains ends at the last digit. Stated independently of the
LastIndexAny-based truncation of the source, for comparison with it. -/
def dropTrailingNonDigits : List Char → List Char
  | [] => []
  | c :: rest =>
    match dropTrailingNonDigits rest with
    | [] => if isDigitChar c then [c] else []
    | t => c :: t

/-- The integer-extraction rule in the claim's words: the value is truncated
at the first non-numeric character and the remaining prefix parsed as a
base-10 integer, with 0 on any parse failure. -/
def claimFirstNonDigitInt (v : String) : Int :=
  parseIntOrZero (v.data.takeWhile isDigitChar)

/-- A handler that writes nothing and returns no error. -/
def trivialHandler : HandlerFunc := fun _ w => (w, none)

/-- An error handler that records the error it was shown. -/
def recErrH : ErrorHandlerFunc := fun _ e w => w ++ ["err:" ++ e]

/-- A fallback handler that records its invocation and returns no error. -/
def fileTagHandler : HandlerFunc := fun _ w => (w ++ ["file"], none)

/-- A mux with no routes and no middleware. -/
def emptyMux : Mux :=
  { routes := [], handlerFuncs := [], ErrorHandler := recErrH, FileHandler := fileTagHandler }

/-- A route that matches every path and method and binds the single path
parameter id=5, as in the merge-precedence scenario. -/
def idRoute : RouteI :=
  { MatchMethod := fun _ => true
    MatchMaybe := fun _ => true
    Match := fun _ => true
    Parse := fun _ => [("id", "5")]
    Handler := trivialHandler }

/-- A request with no body: GET /users/5?id=6. -/
def reqIdQuery : Request :=
  { Method := "GET"
    Path := "/users/5"
    Query := [("id", ["6"])]
    Body := none
    ContentType := "" }

/-- A plain bodyless GET / request. -/
def reqPlain : Request :=
  { Method := "GET", Path := "/", Query := [], Body := none, ContentType := "" }

/-- A mux whose single route is idRoute. -/
def idMux : Mux :=
  { routes := [idRoute], handlerFuncs := [],
    ErrorHandler := recErrH, FileHandler := trivialHandler }

/-! ### Helper lemmas -/

/-- Scanning a non-empty route list selects the head exactly when it passes
all three checks, and otherwise scans the tail. -/
lemma matchList_cons (rt : RouteI) (rest : List RouteI) (path method : String) :
    matchList (rt :: rest) path method
      = if passesR path method rt then some rt else matchList rest path method := by
  simp only [matchList, passesR]
  by_cases h1 : rt.MatchMaybe path = true <;> by_cases h2 : rt.MatchMethod method = true <;>
    by_cases h3 : rt.Match path = true <;> simp [h1, h2, h3]

/-- Characterization of the scan: it returns a route exactly when the list
splits at that route, the route passes, and everything before it fails. -/
lemma matchList_eq_some_iff (routes : List RouteI) (path method : String) (rt : RouteI) :
    matchList routes path method = some rt ↔
      ∃ l1 l2, routes = l1 ++ rt :: l2 ∧ passesR path method rt = true ∧
        ∀ r' ∈ l1, passesR path method r' = false := by
  induction routes with
  | nil =>
    constructor
    · intro h
      simp [matchList] at h
    · rintro ⟨l1, l2, hd, -, -⟩
      cases l1 <;> simp at hd
  | cons head tail ih =>
    rw [matchList_cons]
    by_cases hp : passesR path method head = true
    · rw [if_pos hp]
      constructor
      · intro h
        have hrt : head = rt := by
          injection h
        exact ⟨[], tail, by simp [hrt], by rw [← hrt]; exact hp, by intro r' hr'; simp at hr'⟩
      · rintro ⟨l1, l2, hd, hrt, hall⟩
        cases l1 with
        | nil =>
          simp at hd
          rw [hd.1]
        | cons a as =>
          have hmem : head ∈ a :: as := by
            have : head = a := by
              simpa using congrArg (fun l => l.head?) hd
            rw [this]
            exact List.mem_cons_self a as
          have := hall head hmem
          rw [hp] at this
          cases this
    · rw [if_neg hp, ih]
      have hpf : passesR path method head = false := by
        cases h : passesR path method head
        · rfl
        · exact absurd h hp
      constructor
      · rintro ⟨l1, l2, hd, hrt, hall⟩
        refine ⟨head :: l1, l2, by simp [hd], hrt, ?_⟩
        intro r' hr'
        rcases List.mem_cons.mp hr' with h | h
        · rw [h]; exact hpf
        · exact hall r' h
      · rintro ⟨l1, l2, hd, hrt, hall⟩
        cases l1 with
        | nil =>
          simp at hd
          rw [hd.1] at hpf
          rw [hrt] at hpf
          cases hpf
        | cons a as =>
          simp at hd
          refine ⟨as, l2, hd.2, hrt, ?_⟩
          intro r' hr'
          exact hall r' (List.mem_cons_of_mem a hr')

/-- Appending the non-matchable sentinel route never changes the scan. -/
lemma matchList_append_sentinel (l : List RouteI) (path method : String) :
    matchList (l ++ [sentinelRoute]) path method = matchList l path method := by
  induction l with
  | nil => simp [matchList, sentinelRoute]
  | cons head tail ih =>
    rw [List.cons_append, matchList_cons, matchList_cons, ih]

/-! ### Claim theorems -/

/-- Claim C1, counterexample: with middleware A = tagMW "preA" "postA" added
before B = tagMW "preB" "postB", a served request observes A's
pre-processing first and A's post-processing last — not B's first and B's
last as the claim predicts. -/
theorem c1_counterexample :
    ((emptyMux.AddMiddleware (tagMW "preA" "postA")).AddMiddleware
        (tagMW "preB" "postB")).ServeHTTP reqPlain []
      = ["preA", "preB", "file", "postB", "postA"]
    ∧ (["preA", "preB", "file", "postB", "postA"] : World)
      ≠ ["preB", "preA", "file", "postA", "postB"] := by
  exact ⟨rfl, by decide⟩

/-- Claim C1, amended: middleware composition is FIFO in registration order
with the first-added middleware outermost: adding A before B, a request
observes A's pre-processing first, then B's, then the dispatch endpoint,
then B's post-processing, then A's post-processing; in general the two most
recently added middleware sit innermost, with the earlier of the two
wrapping the later. -/
theorem c1_theorem :
    (∀ (rs : List RouteI) (eh : ErrorHandlerFunc) (fh : HandlerFunc)
        (a b c d : String) (r : Request) (w : World),
      (((Mux.mk rs [] eh fh).AddMiddleware (tagMW a c)).AddMiddleware
          (tagMW b d)).ServeHTTP r w
        = ((Mux.mk rs [] eh fh).RouteRequestW r ((w ++ [a]) ++ [b]) ++ [d]) ++ [c])
    ∧ (∀ (m : Mux) (A B : Middleware) (r : Request) (w : World),
      ((m.AddMiddleware A).AddMiddleware B).ServeHTTP r w
        = (m.handlerFuncs.foldl (fun h mh => mh h) (A (B m.RouteRequestW))) r w) :=
  ⟨fun _ _ _ _ _ _ _ _ _ => rfl, fun _ _ _ _ _ => rfl⟩

/-- Claim C4: dispatch is a deterministic first-match linear scan in
registration order — Mux.Match returns a route exactly when the route list
splits at that route, it passes MatchMaybe, MatchMethod and Match for the
request, and every earlier-registered route fails the combined check. -/
theorem c4_theorem (m : Mux) (r : Request) (rt : RouteI) :
    m.Match (some r) = some rt ↔
      ∃ l1 l2, m.routes = l1 ++ rt :: l2 ∧ passesR r.Path r.Method rt = true ∧
        ∀ r' ∈ l1, passesR r.Path r.Method r' = false :=
  matchList_eq_some_iff m.routes r.Path r.Method rt

/-- Claim C5: per request exactly one of the matched route's handler and the
fallback FileHandler runs (the route's exactly when a route matched), and
the ErrorHandler is invoked exactly on the error that handler returned —
verbatim, at most once, and not at all when the handler returns no error. -/
theorem c5_theorem (m : Mux) (r : Request) (w : World) :
    ((m.RouteRequest r w).2.filter isHandlerCall)
        = [if (m.Match (some r)).isSome then Call.route else Call.file]
    ∧ (m.RouteRequest r w).2.filterMap errOf = (executedErr m r w).toList := by
  unfold Mux.RouteRequest executedErr
  cases hm : m.Match (some r) with
  | none =>
    cases he : (m.FileHandler r w).2 with
    | none => simp [hm, he, isHandlerCall, errOf, List.filter, List.filterMap]
    | some e => simp [hm, he, isHandlerCall, errOf, List.filter, List.filterMap]
  | some rt =>
    cases he : (rt.Handler r w).2 with
    | none => simp [hm, he, isHandlerCall, errOf, List.filter, List.filterMap]
    | some e => simp [hm, he, isHandlerCall, errOf, List.filter, List.filterMap]

/-- Claim C9: ParamsWithMux ignores its mux argument — the result is the
same for any two mux arguments, because route lookup goes through the
package-level default mux; and with no default mux set the call is
undefined (a nil dereference, modelled as none). -/
theorem c9_theorem (dflt : Option Mux) (m1 m2 : Mux) (r : Request) :
    ParamsWithMux dflt m1 r = ParamsWithMux dflt m2 r
    ∧ ParamsWithMux none m1 r = none :=
  ⟨rfl, rfl⟩

/-- Claim C3: when the matched route binds the single path parameter k=v and
the query string carries values qvs for the same key, the built parameter
set maps k to the ordered list v :: qvs — path value first — and the
first-value accessor Get returns the path value v. -/
theorem c3_theorem (dm m : Mux) (r : Request) (rt : RouteI) (k v : String)
    (qvs : List String)
    (hm : dm.Match (some r) = some rt)
    (hp : rt.Parse r.Path = [(k, v)])
    (hq : r.Query = [(k, qvs)])
    (hb : r.Body = none) :
    ParamsWithMux (some dm) m r
      = some (Except.ok { Values := [(k, v :: qvs)], Files := [] })
    ∧ (RequestParams.mk [(k, v :: qvs)] []).Get k = some v := by
  constructor
  · simp only [ParamsWithMux]
    rw [hm]
    simp [hp, hq, hb, RequestParams.Set, RequestParams.Add, setA, lookupA, List.foldl]
  · simp [RequestParams.Get, lookupA]

/-- Claim C3 witness at a concrete mux and request: path parameter id=5 with
query ?id=6 yields id ↦ ["5", "6"] and Get "id" = "5". -/
theorem c3_witness :
    ParamsWithMux (some idMux) emptyMux reqIdQuery
      = some (Except.ok { Values := [("id", ["5", "6"])], Files := [] })
    ∧ (RequestParams.mk [("id", ["5", "6"])] []).Get "id" = some "5" :=
  c3_theorem idMux emptyMux reqIdQuery idRoute "id" "5" ["6"] rfl rfl rfl rfl

/-- Claim C6, counterexample: a request with no body at all (so no malformed
or oversized payload) still makes ParamsWithMux return an error when no
route matches it, contradicting the claim that errors arise only from a
malformed body. -/
theorem c6_counterexample :
    reqPlain.Body = none
    ∧ ParamsWithMux (some emptyMux) emptyMux reqPlain
        = some (Except.error "mux: could not find route for request") :=
  ⟨rfl, rfl⟩

/-- Claim C6, amended: with a default mux set, parameter building fails
exactly when no route of the default mux matches the request, or a body is
present whose declared form-encoded or multipart content fails to parse
(including a multipart payload over the size ceiling); and on error only
the error is returned, never a partial parameter set. -/
theorem c6_theorem (dm m : Mux) (r : Request) :
    (∃ e, ParamsWithMux (some dm) m r = some (Except.error e)) ↔
      (dm.Match (some r) = none ∨ bodyFails r = true) := by
  simp only [ParamsWithMux, bodyFails]
  cases hm : dm.Match (some r) with
  | none => simp [hm]
  | some rt =>
    cases hb : r.Body with
    | none => simp [hm, hb]
    | some b =>
      by_cases h1 : goHasPre r.ContentType "application/x-www-form-urlencoded" = true
      · cases hf : b.ParseForm <;> simp [hm, hb, h1, hf, isErrE]
      · by_cases h2 : goHasPre r.ContentType "multipart/form-data" = true
        · cases hmp : b.ParseMultipartForm <;> simp [hm, hb, h1, h2, hmp, isErrE]
        · simp [hm, hb, h1, h2]

/-- Claim C7: adding a route whose pattern fails to compile still appends
exactly one entry to the route list, and the appended (sentinel) route is
never selected: scanning the extended list gives the same result as
scanning the original list for every path and method. -/
theorem c7_theorem (m : Mux) (pattern : String) (h : HandlerFunc) (e : Err)
    (hfail : NewRoute pattern h = Except.error e) :
    (m.Add pattern h).1.routes.length = m.routes.length + 1
    ∧ ∀ path method,
        matchList (m.Add pattern h).1.routes path method = matchList m.routes path method := by
  unfold Mux.Add
  rw [hfail]
  constructor
  · simp
  · intro path method
    exact matchList_append_sentinel m.routes path method

/-- Claim C7 witness: the duplicate-capture pattern /a/:x/:x fails to
compile, yet Add grows the empty mux's route list to one entry and the scan
is unchanged. -/
theorem c7_witness :
    NewRoute "/a/:x/:x" trivialHandler
        = Except.error "mux: duplicate capture names in pattern"
    ∧ ((emptyMux.Add "/a/:x/:x" trivialHandler).1.routes.length
          = emptyMux.routes.length + 1
      ∧ ∀ path method,
          matchList (emptyMux.Add "/a/:x/:x" trivialHandler).1.routes path method
            = matchList emptyMux.routes path method) :=
  ⟨rfl, c7_theorem emptyMux "/a/:x/:x" trivialHandler _ rfl⟩

/-- An exact pattern match forces the cheap pre-filter to accept: the
pre-filter only compares the segment count and the literal segments, both
of which the exact match also requires. -/
lemma patMatch_imp_maybe : ∀ (ps : List Seg) (ss : List (List Char)),
    patMatchL ps ss = true → maybeMatchesL ps ss = true := by
  intro ps
  induction ps with
  | nil =>
    intro ss h
    cases ss with
    | nil => rfl
    | cons s tl => simp [patMatchL] at h
  | cons p ptl ih =>
    intro ss h
    cases ss with
    | nil => cases p <;> simp [patMatchL] at h
    | cons s stl =>
      cases p with
      | lit cs =>
        simp only [patMatchL, Bool.and_eq_true] at h
        simp only [maybeMatchesL, Bool.and_eq_true]
        exact ⟨h.1, ih stl h.2⟩
      | capture n =>
        simp only [patMatchL, Bool.and_eq_true] at h
        simp only [maybeMatchesL]
        exact ih stl h.2

/-- Claim C8: the cheap pre-filter has no false negatives — for every
compiled pattern and path, if MaybeMatches rejects the path then the
authoritative Match rejects it too. -/
theorem c8_theorem (template : String) (pat : List Seg) (path : String)
    (hc : compile template = Except.ok pat)
    (hmaybe : maybeMatchesL pat (splitSegs path) = false) :
    patMatchL pat (splitSegs path) = false := by
  cases hp : patMatchL pat (splitSegs path) with
  | false => rfl
  | true =>
    have := patMatch_imp_maybe pat (splitSegs path) hp
    rw [hmaybe] at this
    cases this

/-- Claim C8 witness: the compiled pattern of /items/:x rejects the path /a
in the pre-filter (wrong segment count), and the exact match rejects it
too. -/
theorem c8_witness :
    compile "/items/:x"
        = Except.ok [Seg.lit [], Seg.lit ['i', 't', 'e', 'm', 's'], Seg.capture ['x']]
    ∧ maybeMatchesL [Seg.lit [], Seg.lit ['i', 't', 'e', 'm', 's'], Seg.capture ['x']]
        (splitSegs "/a") = false
    ∧ patMatchL [Seg.lit [], Seg.lit ['i', 't', 'e', 'm', 's'], Seg.capture ['x']]
        (splitSegs "/a") = false :=
  ⟨rfl, rfl, c8_theorem "/items/:x" _ "/a" rfl rfl⟩

/-- Dropping the trailing non-digit run leaves nothing exactly when the
string holds no digit at all. -/
lemma dropTrailing_eq_nil_iff : ∀ cs : List Char,
    dropTrailingNonDigits cs = [] ↔ lastDigitIdx cs = none := by
  intro cs
  induction cs with
  | nil => simp [dropTrailingNonDigits, lastDigitIdx]
  | cons c rest ih =>
    simp only [dropTrailingNonDigits, lastDigitIdx]
    cases ht : dropTrailingNonDigits rest with
    | cons a t =>
      rw [ht] at ih
      have hrest : lastDigitIdx rest ≠ none := by
        intro hnone
        exact absurd (ih.mpr hnone) (by simp)
      cases hlast : lastDigitIdx rest with
      | none => exact absurd hlast hrest
      | some i => simp
    | nil =>
      rw [ht] at ih
      have hnone : lastDigitIdx rest = none := ih.mp rfl
      rw [hnone]
      cases hd : isDigitChar c <;> simp [hd]

/-- The source's truncation v[0 : LastIndexAny(v,"0123456789")+1] keeps
exactly everything up to and including the last digit of the string. -/
lemma take_truncCount_eq : ∀ cs : List Char,
    cs.take (truncCount cs) = dropTrailingNonDigits cs := by
  intro cs
  induction cs with
  | nil => rfl
  | cons c rest ih =>
    cases hlast : lastDigitIdx rest with
    | some i =>
      have h1 : lastDigitIdx (c :: rest) = some (i + 1) := by
        simp [lastDigitIdx, hlast]
      have htc : truncCount (c :: rest) = i + 2 := by
        simp [truncCount, h1]
      have htc' : truncCount rest = i + 1 := by
        simp [truncCount, hlast]
      rw [htc'] at ih
      cases ht : dropTrailingNonDigits rest with
      | nil =>
        exact absurd ((dropTrailing_eq_nil_iff rest).mp ht) (by rw [hlast]; simp)
      | cons a t =>
        have hdrop : dropTrailingNonDigits (c :: rest) = c :: dropTrailingNonDigits rest := by
          simp only [dropTrailingNonDigits]
          rw [ht]
        rw [htc, hdrop, ← ih]
        rfl
    | none =>
      have ht : dropTrailingNonDigits rest = [] := (dropTrailing_eq_nil_iff rest).mpr hlast
      have hdrop : dropTrailingNonDigits (c :: rest)
          = if isDigitChar c then [c] else [] := by
        simp only [dropTrailingNonDigits]
        rw [ht]
      cases hd : isDigitChar c with
      | true =>
        have h1 : lastDigitIdx (c :: rest) = some 0 := by
          simp [lastDigitIdx, hlast, hd]
        have htc : truncCount (c :: rest) = 1 := by
          simp [truncCount, h1]
        rw [htc, hdrop, hd]
        simp
      | false =>
        have h1 : lastDigitIdx (c :: rest) = none := by
          simp [lastDigitIdx, hlast, hd]
        have htc : truncCount (c :: rest) = 0 := by
          simp [truncCount, h1]
        rw [htc, hdrop, hd]
        simp

/-- Claim C2, counterexample: on the value "1x2" the code parses the slice
ending at the last digit ("1x2" itself, a parse failure, hence 0), while
the claim's truncate-at-first-non-digit rule demands 1. -/
theorem c2_counterexample :
    (RequestParams.mk [("k", ["1x2"])] []).GetInt "k" = some 0
    ∧ claimFirstNonDigitInt "1x2" = 1
    ∧ (RequestParams.mk [("k", ["1x2"])] []).GetInt "k"
        ≠ some (claimFirstNonDigitInt "1x2") := by
  exact ⟨rfl, rfl, by decide⟩

/-- Claim C2, amended: GetInt truncates the first value just past its last
numeric character (dropping the trailing run of non-digits, per the
LastIndexAny-based slice) and parses what remains as a base-10 64-bit
integer, yielding 0 on any parse failure and 0 for a missing key (whose
value reads as the empty string); "42abc" still gives 42 and "abc" gives 0. -/
theorem c2_theorem (p : RequestParams) (k v : String) (h : p.Get k = some v) :
    p.GetInt k = some (parseIntOrZero (dropTrailingNonDigits v.data)) := by
  unfold RequestParams.GetInt
  rw [h]
  simp [take_truncCount_eq]

/-- Claim C2 witness: concrete evaluations — first value "42abc" gives 42,
"abc" gives 0, and a missing key gives 0. -/
theorem c2_witness :
    (RequestParams.mk [("k", ["42abc"])] []).GetInt "k" = some 42
    ∧ (RequestParams.mk [("k", ["abc"])] []).GetInt "k" = some 0
    ∧ (RequestParams.mk [] []).GetInt "missing" = some 0 := by
  refine ⟨?_, ?_, ?_⟩
  · have h := c2_theorem (RequestParams.mk [("k", ["42abc"])] []) "k" "42abc" rfl
    rw [h]
    rfl
  · have h := c2_theorem (RequestParams.mk [("k", ["abc"])] []) "k" "abc" rfl
    rw [h]
    rfl
  · have h := c2_theorem (RequestParams.mk [] []) "missing" "" rfl
    rw [h]
    rfl

/-- Flattening succeeds on a Values list whose every entry is non-empty and
keeps each entry's first value. -/
lemma flattenVals_of_nonempty : ∀ vals : List (String × List String),
    (∀ kv ∈ vals, kv.2 ≠ []) →
      ∃ l, flattenVals vals = some l
        ∧ ∀ k v vs, (k, v :: vs) ∈ vals → (k, v) ∈ l := by
  intro vals
  induction vals with
  | nil =>
    intro _
    exact ⟨[], rfl, by intro k v vs h; simp at h⟩
  | cons kv rest ih =>
    intro hinv
    obtain ⟨k0, vs0⟩ := kv
    cases hvs : vs0 with
    | nil =>
      have hne := hinv (k0, vs0) (List.mem_cons_self _ _)
      rw [hvs] at hne
      exact absurd rfl hne
    | cons v0 t0 =>
      obtain ⟨l, hl, hmem⟩ := ih fun kv h => hinv kv (List.mem_cons_of_mem _ h)
      refine ⟨(k0, v0) :: l, ?_, ?_⟩
      · simp only [flattenVals, hvs, hl]
        rfl
      · intro k v vs h
        rcases List.mem_cons.mp h with h | h
        · have hk : k = k0 ∧ v = v0 := by
            have h1 := congrArg Prod.fst h
            have h2 := congrArg (fun q => q.2.head?) h
            simp at h1 h2
            exact ⟨h1, h2⟩
          rw [hk.1, hk.2]
          exact List.mem_cons_self _ _
        · exact List.mem_cons_of_mem _ (hmem k v vs h)

/-- Claim C10: on parameters whose present keys all hold at least one value,
Get is total — the first value for a present key, "" for an absent one —
and Map succeeds, mapping every present key to its first value; but a
present key with an empty value list (reachable through Set with an empty
slice) makes the v[0] index access in Get and Map panic (modelled none). -/
theorem c10_theorem :
    (∀ p : RequestParams, (∀ kv ∈ p.Values, kv.2 ≠ []) →
      (∀ k, lookupA p.Values k = none → p.Get k = some "")
      ∧ (∀ k v vs, lookupA p.Values k = some (v :: vs) → p.Get k = some v)
      ∧ ∃ l, p.Map = some l ∧ ∀ k v vs, (k, v :: vs) ∈ p.Values → (k, v) ∈ l)
    ∧ ((RequestParams.mk [] []).Set "a" []).Get "a" = none
    ∧ ((RequestParams.mk [] []).Set "a" []).Map = none := by
  refine ⟨?_, rfl, rfl⟩
  intro p hinv
  refine ⟨?_, ?_, flattenVals_of_nonempty p.Values hinv⟩
  · intro k hk
    unfold RequestParams.Get
    rw [hk]
  · intro k v vs hk
    unfold RequestParams.Get
    rw [hk]
    rfl

/-- Claim C10 witness: on concrete non-empty parameters Get returns the
first value and Map succeeds. -/
theorem c10_witness :
    (RequestParams.mk [("x", ["1", "2"])] []).Get "x" = some "1"
    ∧ (RequestParams.mk [("x", ["1", "2"])] []).Map
        = some [("x", "1")] := by
  have h := c10_theorem.1 (RequestParams.mk [("x", ["1", "2"])] []) (by decide)
  exact ⟨h.2.1 "x" "1" ["2"] rfl, rfl⟩

end MuxModel
